import Mathlib

/-!
# A shallow embedding of `src/dist/index.js` (node-vault client)

This file embeds the request-generation pipeline of the node-vault client:
JavaScript values, the tv4-style schema validator (for the flat schemas the
client uses), the mustache path templating with HTML-entity escaping and the
post-render `&#x2F;` decoding, the response normalizer `handleVaultResponse`,
the query extension `extendOptions`, the generic verbs, and the generated
operation closures produced by `generateFunction`.

External collaborators (tv4, mustache, `encodeURIComponent`) are modelled by
executable Lean functions following their documented semantics on the
fragment the client exercises: flat JSON schemas, `{{key}}` interpolation
with mustache's HTML escaping, percent-encoding of UTF-8 bytes.
-/

namespace NodeVault

/-- JavaScript values as manipulated by the client: `null`, booleans,
numbers (modelled as integers; the client never computes with them),
strings, arrays and objects (ordered field lists, as JS preserves insertion
order of string keys). -/
inductive JValue where
  | null
  | bool (b : Bool)
  | num (n : Int)
  | str (s : String)
  | arr (elems : List JValue)
  | obj (fields : List (String × JValue))

/-- Property lookup on a JS object's field list (first match). -/
def lookupField : List (String × JValue) → String → Option JValue
  | [], _ => none
  | (k', v) :: rest, k => if k' = k then some v else lookupField rest k

/-- JS truthiness of a value. -/
def jsTruthy : JValue → Bool
  | .null => false
  | .bool b => b
  | .num n => !(n == 0)
  | .str s => !(s == "")
  | .arr _ => true
  | .obj _ => true

mutual

/-- JS string coercion `String(v)` for the values the client passes to
`encodeURIComponent` (arrays join their coerced elements with commas,
plain objects print as `[object Object]`). -/
def jsCoerceStr : JValue → String
  | .null => "null"
  | .bool b => if b then "true" else "false"
  | .num n => toString n
  | .str s => s
  | .arr l => String.intercalate "," (jsCoerceList l)
  | .obj _ => "[object Object]"

def jsCoerceList : List JValue → List String
  | [] => []
  | v :: vs => jsCoerceStr v :: jsCoerceList vs

end

/-- `response.body.errors`: property access on the body when it is an
object; anything else has no `errors` property. -/
def errorsOf : JValue → Option JValue
  | .obj fs => lookupField fs "errors"
  | _ => none

/-- JS `.length` as a number: defined for arrays and strings, absent
(`undefined`, which compares `> 0` as false) otherwise. -/
def jsLen : JValue → Option Nat
  | .arr l => some l.length
  | .str s => some s.length
  | _ => none

/-- JS `v[0]` on the `errors` value: first array element, or first
character of a string. -/
def firstEntry : JValue → JValue
  | .arr (x :: _) => x
  | .str s =>
    match s.data with
    | c :: _ => .str (String.mk [c])
    | [] => .null
  | _ => .null

/-- The guard `response.body && response.body.errors &&
response.body.errors.length > 0` of `handleVaultResponse`
(src/dist/index.js:36). -/
def errCond (body : JValue) : Bool :=
  jsTruthy body &&
    (match errorsOf body with
     | some e =>
       jsTruthy e &&
         (match jsLen e with
          | some n => decide (0 < n)
          | none => false)
     | none => false)

/-- The error message chosen by `handleVaultResponse`
(src/dist/index.js:35-40): `body.errors[0]` when the guard holds, else the
string `'Status ' + statusCode`. -/
def vaultMessage (body : JValue) (status : Nat) : JValue :=
  if errCond body then firstEntry ((errorsOf body).getD .null)
  else .str ("Status " ++ toString status)

/-- The response object consumed by `handleVaultResponse`: status code,
parsed JSON body, and the path of the request that produced it
(`response.request.path`). -/
structure VResponse where
  statusCode : Nat
  body : JValue
  requestPath : String

/-- Rejection values of `handleVaultResponse`. -/
inductive VaultError where
  | noResponse
  | opError (message : JValue)

/-- Decidable substring test on character lists: models the unanchored
regular-expression test `path.match(/sys\/health/) !== null`
(src/dist/index.js:32). -/
def containsSeq (needle : List Char) : List Char → Bool
  | [] => needle.isPrefixOf []
  | c :: rest => needle.isPrefixOf (c :: rest) || containsSeq needle rest

/-- The health special case: the request path matches `/sys\/health/`,
i.e. contains the substring `sys/health` anywhere. -/
def healthMatch (p : String) : Bool :=
  containsSeq "sys/health".data p.data

/-- `handleVaultResponse` (src/dist/index.js:27-45): reject when no
response is passed; resolve with the body on status 200/204; on any other
status resolve with the body when the request path matches the health
pattern, else reject with the extracted message. -/
def handleVaultResponse : Option VResponse → Except VaultError JValue
  | none => .error .noResponse
  | some r =>
    if r.statusCode ≠ 200 ∧ r.statusCode ≠ 204 then
      if healthMatch r.requestPath then .ok r.body
      else .error (.opError (vaultMessage r.body r.statusCode))
    else .ok r.body

/-! ## tv4-style schema validation

The client only ever passes flat schemas to tv4: a top-level `type`,
`properties` whose values are single-level `{type: ...}` entries, and a
`required` list (`requestSchema` at src/dist/index.js:54-65, and the
command table's req/query schemas). The validator below implements
JSON-Schema draft-4 semantics on that fragment: `required` and
`properties` constrain only object instances, a declared property is
checked only when present. -/

inductive SType where
  | sObject
  | sString
  | sBoolean
  | sInteger
  deriving DecidableEq

/-- A property entry of a flat schema: an optional `type` keyword. -/
structure PropSchema where
  stype : Option SType := none

/-- A flat JSON schema as used by the client. -/
structure Schema where
  stype : Option SType := none
  properties : List (String × PropSchema) := []
  required : List String := []

/-- `type` keyword check. -/
def typeOk (v : JValue) : Option SType → Bool
  | none => true
  | some .sObject => match v with | .obj _ => true | _ => false
  | some .sString => match v with | .str _ => true | _ => false
  | some .sBoolean => match v with | .bool _ => true | _ => false
  | some .sInteger => match v with | .num _ => true | _ => false

/-- `tv4.validate(value, schema)` on the flat fragment. -/
def validate (v : JValue) (s : Schema) : Bool :=
  typeOk v s.stype &&
    (match v with
     | .obj kvs =>
       s.required.all (fun k => (lookupField kvs k).isSome) &&
         s.properties.all (fun kp =>
           match lookupField kvs kp.1 with
           | some x => typeOk x kp.2.stype
           | none => true)
     | _ => true)

/-- The `requestSchema` guarding `client.request`
(src/dist/index.js:54-65). -/
def requestSchema : Schema :=
  { stype := some .sObject
    properties := [("path", { stype := some .sString }), ("method", { stype := some .sString })]
    required := ["path", "method"] }

/-! ## Client configuration, tokens, headers, request options -/

/-- The client's token slot: JS distinguishes `undefined`, `null`, and
strings (including the empty string). -/
inductive TokenV where
  | undef
  | null
  | str (s : String)
  deriving DecidableEq

/-- The token-presence guard of `client.request`
(src/dist/index.js:79), transcribed literally:
`client.token !== undefined || client.token !== null || client.token !== ''`. -/
def tokenCond (t : TokenV) : Bool :=
  !(t == TokenV.undef) || !(t == TokenV.null) || !(t == TokenV.str "")

/-- JS property assignment `headers[k] = v`: overwrite in place when the
key exists, else append. -/
def setHeader : List (String × TokenV) → String → TokenV → List (String × TokenV)
  | [], k, v => [(k, v)]
  | (k', v') :: rest, k, v =>
    if k' = k then (k', v) :: rest else (k', v') :: setHeader rest k v

/-- The options object passed to `client.request`, restricted to the
properties the client itself reads: `path`, `method`, `json`, `headers`.
`none` models an absent property. -/
structure ReqOptions where
  path : Option JValue := none
  method : Option JValue := none
  json : Option JValue := none
  headers : Option (List (String × TokenV)) := none

/-- `Object.assign({}, a, b)` on the modelled properties: a property of
`b` wins when present. -/
def mergeOptions (a b : ReqOptions) : ReqOptions :=
  { path := match b.path with | some x => some x | none => a.path
    method := match b.method with | some x => some x | none => a.method
    json := match b.json with | some x => some x | none => a.json
    headers := match b.headers with | some x => some x | none => a.headers }

/-- The options object viewed as the JS object that tv4 validates
(src/dist/index.js:71): absent properties are simply missing keys. -/
def optionsToJValue (o : ReqOptions) : JValue :=
  .obj ((match o.path with | some p => [("path", p)] | none => []) ++
        (match o.method with | some m => [("method", m)] | none => []) ++
        (match o.json with | some j => [("json", j)] | none => []))

/-- Client configuration: `client.endpoint`, `client.apiVersion`,
`client.token` (src/dist/index.js:50-52) and `config.requestOptions`. -/
structure ClientCfg where
  endpoint : String
  apiVersion : String
  token : TokenV
  requestOptions : ReqOptions := {}

/-! ## Mustache templating and slash decoding (URI builder)

`client.request` renders the concatenated URI with mustache using
`options.json` as the view (src/dist/index.js:75) and then decodes the
HTML entity `&#x2F;` back to `/` (src/dist/index.js:77). Mustache's
default `{{key}}` interpolation substitutes the HTML-escaped string value
of the key, and the empty string for a missing or null key. -/

/-- mustache's HTML escaping of one character (its `entityMap`). -/
def escapeChar (c : Char) : List Char :=
  if c = '&' then "&amp;".data
  else if c = '<' then "&lt;".data
  else if c = '>' then "&gt;".data
  else if c = '"' then "&quot;".data
  else if c = Char.ofNat 39 then "&#39;".data
  else if c = '/' then "&#x2F;".data
  else if c = Char.ofNat 96 then "&#x60;".data
  else if c = '=' then "&#x3D;".data
  else [c]

/-- Scan for the closing `}}` of a mustache tag: returns the key text and
the remainder after the `}}`. -/
def findClose : List Char → Option (List Char × List Char)
  | [] => none
  | c :: rest =>
    if c = '}' ∧ rest.head? = some '}' then some ([], rest.tail)
    else (findClose rest).map (fun p => (c :: p.1, p.2))

/-- Mustache `{{key}}` interpolation over a character list, fuelled for
structural recursion (the fuel is the input length, consumed at least one
per step, so it never runs out). Literal text is copied; a `{{key}}` tag
is replaced by the HTML-escaped value of the key (empty when missing);
a `{{` without a closing `}}` is left as-is. -/
def renderFuel (p : String → Option String) : Nat → List Char → List Char
  | 0, l => l
  | _ + 1, [] => []
  | _ + 1, [c] => [c]
  | fuel + 1, c1 :: c2 :: rest =>
    if c1 = '{' ∧ c2 = '{' then
      match findClose rest with
      | none => c1 :: c2 :: rest
      | some q =>
        (((p (String.mk q.1)).getD "").data.flatMap escapeChar) ++ renderFuel p fuel q.2
    else c1 :: renderFuel p fuel (c2 :: rest)

/-- `mustache.render(s, view)` for the interpolation-only templates the
client uses. -/
def mustacheRenderL (p : String → Option String) (l : List Char) : List Char :=
  renderFuel p l.length l

/-- `uri.replace(/&#x2F;/g, '/')` (src/dist/index.js:77): decode every
occurrence of the entity `&#x2F;` to a literal slash, left to right. -/
def decodeSlashL : List Char → List Char
  | '&' :: '#' :: 'x' :: '2' :: 'F' :: ';' :: rest => '/' :: decodeSlashL rest
  | c :: rest => c :: decodeSlashL rest
  | [] => []

/-- The mustache view derived from `options.json`: field lookup followed
by mustache's stringification (null and missing render as empty). -/
def jsonCtx (j : Option JValue) (k : String) : Option String :=
  match j with
  | some (.obj fs) =>
    match lookupField fs k with
    | some .null => none
    | some v => some (jsCoerceStr v)
    | none => none
  | _ => none

/-- The URI construction of `client.request` (src/dist/index.js:73-77):
concatenate endpoint, slash, api version and path, mustache-render the
whole string against `options.json`, then decode `&#x2F;`. -/
def buildUri (endpoint apiVersion path : String) (json : Option JValue) : String :=
  String.mk (decodeSlashL (mustacheRenderL (jsonCtx json) (endpoint ++ "/" ++ apiVersion ++ path).data))

/-! ## Request executor (`client.request`) -/

/-- Rejection values of the request pipeline before any network traffic:
a tv4 validation failure carrying the validated value and the schema (the
information `tv4.error` is derived from). -/
inductive ReqError where
  | validation (value : JValue) (schema : Schema)

/-- The outgoing HTTP request handed to the transport `rp(options)`:
everything the client has set on `options` by src/dist/index.js:85. -/
structure OutRequest where
  method : String
  uri : String
  headers : List (String × TokenV)
  body : Option JValue

/-- String extraction from an option property; `client.request` only uses
it after `requestSchema` has established the property is a string. -/
def asStr : Option JValue → String
  | some (.str s) => s
  | _ => ""

/-- `client.request` (src/dist/index.js:68-86) up to the transport call:
validate the options against `requestSchema` (reject before any network
on failure), build the URI, default `headers` to `{}`, attach the token
header under the always-true guard of line 79, and produce the request
passed to `rp`. A returned `.ok` value means the HTTP request is issued
with exactly these fields. -/
def clientRequest (cfg : ClientCfg) (options : ReqOptions) : Except ReqError OutRequest :=
  if validate (optionsToJValue options) requestSchema then
    let uri := buildUri cfg.endpoint cfg.apiVersion (asStr options.path) options.json
    let hs0 := options.headers.getD []
    let hs := if tokenCond cfg.token then setHeader hs0 "X-Vault-Token" cfg.token else hs0
    .ok { method := asStr options.method, uri := uri, headers := hs, body := options.json }
  else .error (.validation (optionsToJValue options) requestSchema)

/-! ## Generic verbs (src/dist/index.js:88-127) -/

/-- `client.help(path, requestOptions)`: GET on `'/' + path + '?help=1'`. -/
def clientHelp (cfg : ClientCfg) (path : String) (ro : ReqOptions) : Except ReqError OutRequest :=
  let options := mergeOptions cfg.requestOptions ro
  clientRequest cfg { options with
    path := some (.str ("/" ++ path ++ "?help=1")), method := some (.str "GET") }

/-- `client.write(path, data, requestOptions)`: PUT on `'/' + path` with
`data` as the JSON body. -/
def clientWrite (cfg : ClientCfg) (path : String) (data : JValue) (ro : ReqOptions) :
    Except ReqError OutRequest :=
  let options := mergeOptions cfg.requestOptions ro
  clientRequest cfg { options with
    path := some (.str ("/" ++ path)), json := some data, method := some (.str "PUT") }

/-- `client.read(path, requestOptions)`: GET on `'/' + path`. -/
def clientRead (cfg : ClientCfg) (path : String) (ro : ReqOptions) : Except ReqError OutRequest :=
  let options := mergeOptions cfg.requestOptions ro
  clientRequest cfg { options with
    path := some (.str ("/" ++ path)), method := some (.str "GET") }

/-- `client.list(path, requestOptions)`: LIST on `'/' + path`. -/
def clientList (cfg : ClientCfg) (path : String) (ro : ReqOptions) : Except ReqError OutRequest :=
  let options := mergeOptions cfg.requestOptions ro
  clientRequest cfg { options with
    path := some (.str ("/" ++ path)), method := some (.str "LIST") }

/-- `client.delete(path, requestOptions)`: DELETE on `'/' + path`. -/
def clientDelete (cfg : ClientCfg) (path : String) (ro : ReqOptions) : Except ReqError OutRequest :=
  let options := mergeOptions cfg.requestOptions ro
  clientRequest cfg { options with
    path := some (.str ("/" ++ path)), method := some (.str "DELETE") }

/-! ## Query extension and generated operations -/

/-- An operation descriptor's `schema` object. -/
structure OpSchema where
  req : Option Schema := none
  query : Option Schema := none

/-- A command-table entry: HTTP method, path template, optional schemas. -/
structure OpConf where
  method : String
  path : String
  schema : Option OpSchema := none

/-- The promise-returning `validate(json, schema)` helper
(src/dist/index.js:129-139): resolve when the schema is absent or the
value validates, reject with the tv4 error otherwise. -/
def validateE (j : JValue) : Option Schema → Except ReqError Unit
  | none => .ok ()
  | some s => if validate j s then .ok () else .error (.validation j s)

/-- JS `key in options.json`. -/
def hasKey (j : Option JValue) (k : String) : Bool :=
  match j with
  | some (.obj fs) => (lookupField fs k).isSome
  | _ => false

/-- `options.json[key]` (only used under a `hasKey` guard). -/
def getKey (j : Option JValue) (k : String) : JValue :=
  match j with
  | some (.obj fs) => (lookupField fs k).getD .null
  | _ => .null

/-- Uppercase hexadecimal digit. -/
def hexDigit (n : Nat) : Char :=
  if n < 10 then Char.ofNat (48 + n) else Char.ofNat (65 + (n - 10))

/-- Percent-encoding of one byte. -/
def percentByte (b : Nat) : List Char :=
  ['%', hexDigit (b / 16), hexDigit (b % 16)]

/-- UTF-8 bytes of a code point. -/
def utf8Bytes (n : Nat) : List Nat :=
  if n < 128 then [n]
  else if n < 2048 then [192 + n / 64, 128 + n % 64]
  else if n < 65536 then [224 + n / 4096, 128 + (n / 64) % 64, 128 + n % 64]
  else [240 + n / 262144, 128 + (n / 4096) % 64, 128 + (n / 64) % 64, 128 + n % 64]

/-- Characters `encodeURIComponent` leaves unescaped:
`A-Z a-z 0-9 - _ . ! ~ * ' ( )`. -/
def uriUnreserved (c : Char) : Bool :=
  (65 ≤ c.toNat && c.toNat ≤ 90) || (97 ≤ c.toNat && c.toNat ≤ 122) ||
    (48 ≤ c.toNat && c.toNat ≤ 57) ||
    c = '-' || c = '_' || c = '.' || c = '!' || c = '~' || c = '*' ||
    c = Char.ofNat 39 || c = '(' || c = ')'

/-- JS `encodeURIComponent` on the string coercion of a value. -/
def encodeURIComponent (s : String) : String :=
  String.mk (s.data.flatMap
    (fun c => if uriUnreserved c then [c] else (utf8Bytes c.toNat).flatMap percentByte))

/-- The parameter-collection loop of `extendOptions`
(src/dist/index.js:145-171): walk the query schema's declared property
names in order and push `key + '=' + encodeURIComponent(options.json[key])`
for every key present in the payload. -/
def extendParams (json : Option JValue) : List (String × PropSchema) → List String
  | [] => []
  | kp :: rest =>
    if hasKey json kp.1 then
      (kp.1 ++ "=" ++ (encodeURIComponent (jsCoerceStr (getKey json kp.1)))) :: extendParams json rest
    else extendParams json rest

/-- `extendOptions(conf, options)` (src/dist/index.js:141-177), taking the
operation's schema object (the caller at line 190 only reaches it when
`conf.schema` exists): no query schema leaves the options untouched;
otherwise the collected parameters, when any, are appended to the path as
`'?' + params.join('&')`. -/
def extendOptions (sch : OpSchema) (options : ReqOptions) : ReqOptions :=
  match sch.query with
  | none => options
  | some qs =>
    if (extendParams options.json qs.properties).length > 0 then
      { options with path := some (.str (asStr options.path ++ "?" ++
          String.intercalate "&" (extendParams options.json qs.properties))) }
    else options

/-- The `requestOptions` property of the arguments object of a generated
operation, read back as modelled request options. -/
def roOfJValue : JValue → ReqOptions
  | .obj fs =>
    { path := lookupField fs "path"
      method := lookupField fs "method"
      json := lookupField fs "json"
      headers :=
        match lookupField fs "headers" with
        | some (.obj hs) =>
          some (hs.filterMap (fun kv =>
            match kv.2 with
            | .str s => some (kv.1, TokenV.str s)
            | _ => none))
        | _ => none }
  | _ => {}

/-- `args.requestOptions` (src/dist/index.js:183). -/
def argsRequestOptions (args : JValue) : ReqOptions :=
  match args with
  | .obj fs =>
    match lookupField fs "requestOptions" with
    | some ro => roOfJValue ro
    | none => {}
  | _ => {}

/-- The closure built by `generateFunction(name, conf)`
(src/dist/index.js:179-196): merge `config.requestOptions` with
`args.requestOptions`, set method, path and `json := args`; without a
schema go straight to `client.request`; with a schema, validate the body
against `schema.req` — its rejection aborts the chain — then extend and
execute. The result of `validate(options.json, conf.schema.query)` at
line 190 is passed to `.then` as a promise rather than a callback; JS
`.then` ignores non-function arguments, so a query-schema failure is
discarded and the chain proceeds to the network. The base options of the
call (src/dist/index.js:183-186) are factored out as `generatedOptions`. -/
def generatedOptions (cfg : ClientCfg) (conf : OpConf) (args : JValue) : ReqOptions :=
  { mergeOptions cfg.requestOptions (argsRequestOptions args) with
    method := some (.str conf.method), path := some (.str conf.path), json := some args }

/-- See `generatedOptions` above: the body of the generated closure. -/
def generateFunction (cfg : ClientCfg) (conf : OpConf) (args : JValue) :
    Except ReqError OutRequest :=
  match conf.schema with
  | none => clientRequest cfg (generatedOptions cfg conf args)
  | some sch =>
    match validateE args sch.req with
    | .error e => .error e
    | .ok _ => clientRequest cfg (extendOptions sch (generatedOptions cfg conf args))

/-! ## Spec-side rendering (for the C5 refinement comparison) -/

/-- Plain placeholder substitution, following the spec's words for the
rendered path: each `{{field}}` placeholder is replaced by the payload's
value for that field, the empty string when the field is absent, with any
slash in a substituted value kept as a literal `/`. Structured like
`renderFuel` but without HTML escaping. -/
def substPlainFuel (p : String → Option String) : Nat → List Char → List Char
  | 0, l => l
  | _ + 1, [] => []
  | _ + 1, [c] => [c]
  | fuel + 1, c1 :: c2 :: rest =>
    if c1 = '{' ∧ c2 = '{' then
      match findClose rest with
      | none => c1 :: c2 :: rest
      | some q => ((p (String.mk q.1)).getD "").data ++ substPlainFuel p fuel q.2
    else c1 :: substPlainFuel p fuel (c2 :: rest)

/-- The spec's rendered path for a template and a payload view. -/
def specRenderedPath (tmpl : String) (p : String → Option String) : String :=
  String.mk (substPlainFuel p tmpl.data.length tmpl.data)

/-- The characters mustache's HTML escaping rewrites. -/
def escapedSet : List Char := ['&', '<', '>', '"', Char.ofNat 39, '/', Char.ofNat 96, '=']

/-- A character whose escaping survives the client's URI post-processing
unchanged: either a slash (escaped to `&#x2F;` and decoded back at
src/dist/index.js:77) or a character mustache does not escape at all. -/
def safeChar (c : Char) : Bool := c = '/' || !(escapedSet.contains c)

/-! ## Helper lemmas -/

theorem tokenCond_always (t : TokenV) : tokenCond t = true := by
  cases t with
  | undef => rfl
  | null => rfl
  | str s => simp [tokenCond]

theorem containsSeq_of_pref {n h : List Char} (hp : n.isPrefixOf h = true) :
    containsSeq n h = true := by
  cases h <;> simp [containsSeq, hp]

theorem isPrefixOf_append_self (n b : List Char) : n.isPrefixOf (n ++ b) = true := by
  induction n with
  | nil => simp [List.isPrefixOf]
  | cons c cs ih => simp [List.isPrefixOf, ih]

theorem containsSeq_of_parts (n b : List Char) :
    ∀ a : List Char, containsSeq n (a ++ n ++ b) = true := by
  intro a
  induction a with
  | nil => exact containsSeq_of_pref (isPrefixOf_append_self n b)
  | cons c a' ih =>
    simp only [List.cons_append]
    have hstep : containsSeq n (c :: (a' ++ n ++ b)) =
        (n.isPrefixOf (c :: (a' ++ n ++ b)) || containsSeq n (a' ++ n ++ b)) := rfl
    rw [hstep, ih, Bool.or_true]

theorem handle_ok_of_healthMatch (r : VResponse) (h : healthMatch r.requestPath = true) :
    handleVaultResponse (some r) = .ok r.body := by
  by_cases hs : r.statusCode ≠ 200 ∧ r.statusCode ≠ 204
  · simp [handleVaultResponse, hs, h]
  · simp [handleVaultResponse, hs]

theorem vaultMessage_arr (body e : JValue) (es : List JValue)
    (h : errorsOf body = some (.arr (e :: es))) :
    ∀ st, vaultMessage body st = e := by
  intro st
  have hobj : ∃ fs, body = .obj fs := by
    cases body <;> simp [errorsOf] at h ⊢
  obtain ⟨fs, rfl⟩ := hobj
  simp [vaultMessage, errCond, jsTruthy, h, jsLen, firstEntry]

theorem vaultMessage_status (body : JValue) (st : Nat) (h : errCond body = false) :
    vaultMessage body st = .str ("Status " ++ toString st) := by
  simp [vaultMessage, h]

/-! ## Claim theorems -/

/-- C1 (code bug evaluated on the code): the token-presence guard at
src/dist/index.js:79 is an always-true disjunction, so `client.request`
attaches the `X-Vault-Token` header on every call — also when the token
is `undefined` or the empty string (the claim says no header is attached
then), and it overwrites a header the caller set explicitly. -/
theorem c1_token_header_bug_eval :
    (clientRequest ⟨"http://127.0.0.1:8200", "v1", .undef, {}⟩
        { path := some (.str "/secret/foo"), method := some (.str "GET") } =
      .ok ⟨"GET", "http://127.0.0.1:8200/v1/secret/foo", [("X-Vault-Token", .undef)], none⟩)
    ∧ (clientRequest ⟨"http://127.0.0.1:8200", "v1", .str "", {}⟩
        { path := some (.str "/secret/foo"), method := some (.str "GET") } =
      .ok ⟨"GET", "http://127.0.0.1:8200/v1/secret/foo", [("X-Vault-Token", .str "")], none⟩)
    ∧ (clientRequest ⟨"http://127.0.0.1:8200", "v1", .str "other", {}⟩
        { path := some (.str "/secret/foo"), method := some (.str "GET"),
          headers := some [("X-Vault-Token", .str "mine")] } =
      .ok ⟨"GET", "http://127.0.0.1:8200/v1/secret/foo",
        [("X-Vault-Token", .str "other")], none⟩) :=
  ⟨rfl, rfl, rfl⟩

/-- C2 (code bug evaluated on the code): at src/dist/index.js:190 the
result of `validate(options.json, conf.schema.query)` is handed to
`.then` as a promise instead of a callback, so its rejection is
discarded: a payload that fails the declared query schema (here `{}`
missing the required key `foo`) still reaches the network — the generated
call produces an outgoing request instead of rejecting. -/
theorem c2_query_schema_failure_reaches_network :
    (validate (.obj []) { required := ["foo"] } = false)
    ∧ (generateFunction ⟨"http://e", "v1", .undef, {}⟩
        ⟨"GET", "/x", some ⟨none, some { required := ["foo"] }⟩⟩ (.obj []) =
      .ok ⟨"GET", "http://e/v1/x", [("X-Vault-Token", .undef)], some (.obj [])⟩) :=
  ⟨by decide, rfl⟩

/-- C3: for a response whose request path does not match the health
pattern, the normalizer resolves with the body iff the status is 200 or
204; otherwise it rejects, with `body.errors[0]` as the message when
`body.errors` is a non-empty array, and with `"Status <code>"` when the
errors guard fails. -/
theorem c3_normalizer_status_dichotomy (r : VResponse)
    (hnh : healthMatch r.requestPath = false) :
    ((handleVaultResponse (some r) = .ok r.body) ↔
      (r.statusCode = 200 ∨ r.statusCode = 204))
    ∧ (∀ e es, r.statusCode ≠ 200 → r.statusCode ≠ 204 →
        errorsOf r.body = some (.arr (e :: es)) →
        handleVaultResponse (some r) = .error (.opError e))
    ∧ (r.statusCode ≠ 200 → r.statusCode ≠ 204 → errCond r.body = false →
        handleVaultResponse (some r) =
          .error (.opError (.str ("Status " ++ toString r.statusCode)))) := by
  refine ⟨⟨?_, ?_⟩, ?_, ?_⟩
  · intro hok
    by_cases h200 : r.statusCode = 200
    · exact Or.inl h200
    by_cases h204 : r.statusCode = 204
    · exact Or.inr h204
    exfalso
    simp [handleVaultResponse, h200, h204, hnh] at hok
  · intro hor
    have hcond : ¬(r.statusCode ≠ 200 ∧ r.statusCode ≠ 204) := by tauto
    simp [handleVaultResponse, hcond]
  · intro e es h200 h204 herr
    have hm := vaultMessage_arr r.body e es herr r.statusCode
    simp [handleVaultResponse, h200, h204, hnh, hm]
  · intro h200 h204 hec
    have hm := vaultMessage_status r.body r.statusCode hec
    simp [handleVaultResponse, h200, h204, hnh, hm]

/-- Witness for C3: a 404 with `{errors: ["no such path"]}` on a
non-health path rejects with message `no such path`; a 500 with an empty
body rejects with `Status 500`; a 200 resolves with the body. -/
theorem c3_normalizer_status_dichotomy_witness :
    (handleVaultResponse (some ⟨404, .obj [("errors", .arr [.str "no such path"])],
        "/v1/secret/foo"⟩) = .error (.opError (.str "no such path")))
    ∧ (handleVaultResponse (some ⟨500, .obj [], "/v1/secret/foo"⟩) =
        .error (.opError (.str "Status 500")))
    ∧ (handleVaultResponse (some ⟨200, .obj [("data", .num 1)], "/v1/secret/foo"⟩) =
        .ok (.obj [("data", .num 1)])) :=
  ⟨(c3_normalizer_status_dichotomy _ (by decide)).2.1 (.str "no such path") []
      (by decide) (by decide) rfl,
   (c3_normalizer_status_dichotomy _ (by decide)).2.2 (by decide) (by decide) rfl,
   (c3_normalizer_status_dichotomy
      ⟨200, .obj [("data", .num 1)], "/v1/secret/foo"⟩ (by decide)).1.mpr (Or.inl rfl)⟩

/-- C4: a response whose request path matches the health pattern resolves
with the body for every status code. -/
theorem c4_health_path_always_resolves (r : VResponse)
    (h : healthMatch r.requestPath = true) :
    handleVaultResponse (some r) = .ok r.body :=
  handle_ok_of_healthMatch r h

/-- Witness for C4: status 500 on `/v1/sys/health` still resolves. -/
theorem c4_health_path_always_resolves_witness :
    handleVaultResponse (some ⟨500, .obj [("sealed", .bool true)], "/v1/sys/health"⟩) =
      .ok (.obj [("sealed", .bool true)]) :=
  c4_health_path_always_resolves ⟨500, .obj [("sealed", .bool true)], "/v1/sys/health"⟩
    (by decide)

/-- C9: the health special case is an unanchored substring match — any
request path containing `sys/health` anywhere resolves with the body for
every status code. -/
theorem c9_health_is_substring_match (r : VResponse) (a b : List Char)
    (h : r.requestPath.data = a ++ "sys/health".data ++ b) :
    handleVaultResponse (some r) = .ok r.body := by
  apply handle_ok_of_healthMatch
  unfold healthMatch
  rw [h]
  exact containsSeq_of_parts _ b a

/-- Witness for C9: a secret path `/v1/secret/sys/health` (not the
dedicated health endpoint) with status 404 resolves with the body. -/
theorem c9_health_is_substring_match_witness :
    handleVaultResponse (some ⟨404, .obj [("x", .num 0)], "/v1/secret/sys/health"⟩) =
      .ok (.obj [("x", .num 0)]) :=
  c9_health_is_substring_match ⟨404, .obj [("x", .num 0)], "/v1/secret/sys/health"⟩
    "/v1/secret/".data [] (by decide)

theorem clientRequest_ok_body (cfg : ClientCfg) (o : ReqOptions) (r : OutRequest)
    (h : clientRequest cfg o = .ok r) : r.body = o.json := by
  unfold clientRequest at h
  split at h
  · simp only [Except.ok.injEq] at h
    rw [← h]
  · simp at h

theorem extendOptions_json (sch : OpSchema) (o : ReqOptions) :
    (extendOptions sch o).json = o.json := by
  unfold extendOptions
  cases sch.query with
  | none => rfl
  | some qs =>
    simp only
    split <;> rfl

/-- C10: the entire arguments object of a generated operation is sent as
the JSON body of the issued request — path-template and query fields are
not removed, and an `args.requestOptions` field is transmitted with it. -/
theorem c10_whole_args_as_body (cfg : ClientCfg) (conf : OpConf) (args : JValue)
    (r : OutRequest) (h : generateFunction cfg conf args = .ok r) :
    r.body = some args := by
  unfold generateFunction at h
  cases hs : conf.schema with
  | none =>
    rw [hs] at h
    exact clientRequest_ok_body _ _ _ h
  | some sch =>
    rw [hs] at h
    simp only at h
    cases hv : validateE args sch.req with
    | error e => rw [hv] at h; simp at h
    | ok u =>
      rw [hv] at h
      simp only at h
      have := clientRequest_ok_body _ _ _ h
      rw [this, extendOptions_json]
      rfl

/-- Witness for C10: a generated operation whose arguments carry both a
template field and a `requestOptions` field sends the whole arguments
object as the body. -/
theorem c10_whole_args_as_body_witness :
    (OutRequest.mk "GET" "http://e/v1/x" [("X-Vault-Token", TokenV.undef)]
        (some (.obj [("name", .str "n"), ("requestOptions", .obj [("x", .num 1)])]))).body =
      some (.obj [("name", .str "n"), ("requestOptions", .obj [("x", .num 1)])]) :=
  c10_whole_args_as_body ⟨"http://e", "v1", .undef, {}⟩ ⟨"GET", "/x", none⟩
    (.obj [("name", .str "n"), ("requestOptions", .obj [("x", .num 1)])]) _ (by rfl)

theorem validate_requestSchema_strings (o : ReqOptions) (ps ms : String)
    (hp : o.path = some (.str ps)) (hm : o.method = some (.str ms)) :
    validate (optionsToJValue o) requestSchema = true := by
  cases o.json <;>
    simp [optionsToJValue, hp, hm, validate, requestSchema, typeOk, lookupField]

theorem clientRequest_strings (cfg : ClientCfg) (o : ReqOptions) (ps ms : String)
    (hp : o.path = some (.str ps)) (hm : o.method = some (.str ms)) :
    clientRequest cfg o =
      .ok ⟨ms, buildUri cfg.endpoint cfg.apiVersion ps o.json,
        setHeader (o.headers.getD []) "X-Vault-Token" cfg.token, o.json⟩ := by
  unfold clientRequest
  rw [if_pos (validate_requestSchema_strings o ps ms hp hm)]
  simp [hp, hm, asStr, tokenCond_always]

/-- C7: the generic verbs build their requests exactly as claimed — read
is a GET on `'/' + path`, write a PUT on `'/' + path` carrying `data` as
the body, list a LIST, delete a DELETE, help a GET on
`'/' + path + '?help=1'` — each going straight to `client.request`
(whose only check is `requestSchema`, always satisfied here), with no
operation-schema validation: every such call produces an outgoing
request. -/
theorem c7_generic_verbs (cfg : ClientCfg) (p : String) (d : JValue) (ro : ReqOptions) :
    (clientRead cfg p ro = clientRequest cfg
      { mergeOptions cfg.requestOptions ro with
        path := some (.str ("/" ++ p)), method := some (.str "GET") })
    ∧ (∃ r, clientRead cfg p ro = .ok r ∧ r.method = "GET")
    ∧ (clientWrite cfg p d ro = clientRequest cfg
      { mergeOptions cfg.requestOptions ro with
        path := some (.str ("/" ++ p)), json := some d, method := some (.str "PUT") })
    ∧ (∃ r, clientWrite cfg p d ro = .ok r ∧ r.method = "PUT" ∧ r.body = some d)
    ∧ (clientList cfg p ro = clientRequest cfg
      { mergeOptions cfg.requestOptions ro with
        path := some (.str ("/" ++ p)), method := some (.str "LIST") })
    ∧ (∃ r, clientList cfg p ro = .ok r ∧ r.method = "LIST")
    ∧ (clientDelete cfg p ro = clientRequest cfg
      { mergeOptions cfg.requestOptions ro with
        path := some (.str ("/" ++ p)), method := some (.str "DELETE") })
    ∧ (∃ r, clientDelete cfg p ro = .ok r ∧ r.method = "DELETE")
    ∧ (clientHelp cfg p ro = clientRequest cfg
      { mergeOptions cfg.requestOptions ro with
        path := some (.str ("/" ++ p ++ "?help=1")), method := some (.str "GET") })
    ∧ (∃ r, clientHelp cfg p ro = .ok r ∧ r.method = "GET") := by
  refine ⟨rfl, ⟨_, clientRequest_strings _ _ _ _ rfl rfl, rfl⟩,
    rfl, ⟨_, clientRequest_strings _ _ _ _ rfl rfl, rfl, rfl⟩,
    rfl, ⟨_, clientRequest_strings _ _ _ _ rfl rfl, rfl⟩,
    rfl, ⟨_, clientRequest_strings _ _ _ _ rfl rfl, rfl⟩,
    rfl, ⟨_, clientRequest_strings _ _ _ _ rfl rfl, rfl⟩⟩

/-- C8: an options object without a string `path` or without a string
`method` is rejected by `client.request` before any network traffic, with
the same `tv4.validate`-against-`requestSchema` mechanism used for
operation request schemas. -/
theorem c8_request_options_validation (cfg : ClientCfg) (o : ReqOptions)
    (h : (∀ s, o.path ≠ some (.str s)) ∨ (∀ s, o.method ≠ some (.str s))) :
    clientRequest cfg o = .error (.validation (optionsToJValue o) requestSchema) := by
  obtain ⟨op, om, oj, oh⟩ := o
  have hv : validate (optionsToJValue ⟨op, om, oj, oh⟩) requestSchema = false := by
    rcases h with hp | hm
    · cases op with
      | none =>
        cases om <;> cases oj <;>
          simp [validate, optionsToJValue, requestSchema, lookupField, typeOk]
      | some v =>
        cases v <;>
          first
          | exact absurd rfl (hp _)
          | (cases om <;> cases oj <;>
              simp [validate, optionsToJValue, requestSchema, lookupField, typeOk])
    · cases om with
      | none =>
        cases op <;> cases oj <;>
          simp [validate, optionsToJValue, requestSchema, lookupField, typeOk]
      | some v =>
        cases v <;>
          first
          | exact absurd rfl (hm _)
          | (cases op <;> cases oj <;>
              simp [validate, optionsToJValue, requestSchema, lookupField, typeOk])
  unfold clientRequest
  rw [hv]
  simp

/-- Witness for C8: options carrying only a method (no `path`) are
rejected with the validation error. -/
theorem c8_request_options_validation_witness :
    clientRequest ⟨"http://e", "v1", .undef, {}⟩ { method := some (.str "GET") } =
      .error (.validation (optionsToJValue { method := some (.str "GET") }) requestSchema) :=
  c8_request_options_validation ⟨"http://e", "v1", .undef, {}⟩
    { method := some (.str "GET") } (Or.inl (fun s => by simp))

theorem extendParams_filterMap (json : Option JValue) (props : List (String × PropSchema)) :
    extendParams json props = props.filterMap (fun kp =>
      if hasKey json kp.1 then
        some (kp.1 ++ "=" ++ encodeURIComponent (jsCoerceStr (getKey json kp.1)))
      else none) := by
  induction props with
  | nil => rfl
  | cons kp rest ih =>
    simp only [extendParams, List.filterMap_cons]
    by_cases hk : hasKey json kp.1
    · rw [if_pos hk, if_pos hk, ih]
    · rw [if_neg hk, if_neg hk, ih]

/-- C6: the query-extension step leaves the path untouched when the
descriptor has no query schema, and otherwise appends
`?k=v&k2=v2...` built — in the schema's declared property order — from
exactly the declared keys present in the payload, each as
`key=encodeURIComponent(value)`; when no declared key is present nothing
(not even a lone `?`) is appended. -/
theorem c6_query_extension (sch : OpSchema) (options : ReqOptions) :
    (sch.query = none → extendOptions sch options = options)
    ∧ (∀ qs, sch.query = some qs →
        extendParams options.json qs.properties =
          qs.properties.filterMap (fun kp =>
            if hasKey options.json kp.1 then
              some (kp.1 ++ "=" ++ encodeURIComponent (jsCoerceStr (getKey options.json kp.1)))
            else none)
        ∧ (extendParams options.json qs.properties = [] →
            extendOptions sch options = options)
        ∧ (extendParams options.json qs.properties ≠ [] →
            extendOptions sch options = { options with
              path := some (.str (asStr options.path ++ "?" ++
                String.intercalate "&" (extendParams options.json qs.properties))) })) := by
  refine ⟨?_, ?_⟩
  · intro hq
    unfold extendOptions
    rw [hq]
  · intro qs hq
    refine ⟨extendParams_filterMap _ _, ?_, ?_⟩
    · intro hnil
      unfold extendOptions
      rw [hq]
      simp [hnil]
    · intro hne
      unfold extendOptions
      rw [hq]
      simp only
      rw [if_pos (List.length_pos.mpr hne)]

/-- Witness for C6: query schema `{properties: {list: {}}}` with payload
`{list: true}` appends `?list=true`; the empty payload appends nothing. -/
theorem c6_query_extension_witness :
    extendOptions ⟨none, some { properties := [("list", {})] }⟩
        { path := some (.str "/secrets"), json := some (.obj [("list", .bool true)]) } =
      { path := some (.str "/secrets?list=true"), json := some (.obj [("list", .bool true)]) }
    ∧ extendOptions ⟨none, some { properties := [("list", {})] }⟩
        { path := some (.str "/secrets"), json := some (.obj []) } =
      { path := some (.str "/secrets"), json := some (.obj []) } :=
  ⟨(((c6_query_extension _ _).2 _ rfl).2.2 (by decide)).trans (by rfl),
   ((c6_query_extension _ _).2 _ rfl).2.1 (by rfl)⟩

theorem findClose_len {l : List Char} {q : List Char × List Char}
    (h : findClose l = some q) : q.2.length ≤ l.length := by
  induction l generalizing q with
  | nil => simp [findClose] at h
  | cons c rest ih =>
    rw [findClose] at h
    split at h
    · simp at h
      rw [← h]
      simp [List.length_tail]
      omega
    · simp only [Option.map_eq_some'] at h
      obtain ⟨q', hq, hp⟩ := h
      have := ih hq
      rw [← hp]
      simp
      omega

theorem findClose_mem {l : List Char} {q : List Char × List Char}
    (h : findClose l = some q) : ∀ c ∈ q.2, c ∈ l := by
  induction l generalizing q with
  | nil => simp [findClose] at h
  | cons c rest ih =>
    rw [findClose] at h
    split at h
    · simp at h
      rw [← h]
      intro x hx
      exact List.mem_cons_of_mem _ (List.mem_of_mem_tail hx)
    · simp only [Option.map_eq_some'] at h
      obtain ⟨q', hq, hp⟩ := h
      intro x hx
      rw [← hp] at hx
      exact List.mem_cons_of_mem _ (ih hq x hx)

theorem decodeSlashL_cons_ne {c : Char} (rest : List Char) (h : c ≠ '&') :
    decodeSlashL (c :: rest) = c :: decodeSlashL rest := by
  rw [decodeSlashL.eq_def]
  split
  · simp_all
  · simp_all
  · simp_all

theorem decodeSlashL_entity (rest : List Char) :
    decodeSlashL ('&' :: '#' :: 'x' :: '2' :: 'F' :: ';' :: rest) = '/' :: decodeSlashL rest :=
  rfl

theorem decode_noamp {l : List Char} (h : '&' ∉ l) : decodeSlashL l = l := by
  induction l with
  | nil => rfl
  | cons c rest ih =>
    have hc : c ≠ '&' := fun hcc => h (by rw [hcc]; exact List.mem_cons_self _ _)
    rw [decodeSlashL_cons_ne rest hc, ih (fun hm => h (List.mem_cons_of_mem _ hm))]

theorem decodeSlashL_append {a : List Char} (b : List Char) (h : '&' ∉ a) :
    decodeSlashL (a ++ b) = a ++ decodeSlashL b := by
  induction a with
  | nil => rfl
  | cons c a' ih =>
    have hc : c ≠ '&' := fun hcc => h (by rw [hcc]; exact List.mem_cons_self _ _)
    simp only [List.cons_append]
    rw [decodeSlashL_cons_ne _ hc, ih (fun hm => h (List.mem_cons_of_mem _ hm))]

theorem escapeChar_unescaped {c : Char} (h1 : c ≠ '&') (h2 : c ≠ '<') (h3 : c ≠ '>')
    (h4 : c ≠ '"') (h5 : c ≠ Char.ofNat 39) (h6 : c ≠ '/') (h7 : c ≠ Char.ofNat 96)
    (h8 : c ≠ '=') : escapeChar c = [c] := by
  simp [escapeChar, h1, h2, h3, h4, h5, h6, h7, h8]

theorem safeChar_cases {c : Char} (h : safeChar c = true) :
    c = '/' ∨ (escapeChar c = [c] ∧ c ≠ '&') := by
  by_cases hc : c = '/'
  · exact Or.inl hc
  · right
    simp [safeChar, escapedSet, hc] at h
    obtain ⟨h1, h2, h3, h4, h5, h6, h7⟩ := h
    exact ⟨escapeChar_unescaped h1 h2 h3 h4 h5 hc h6 h7, h1⟩

theorem decode_escape_append (v t : List Char) (hs : ∀ c ∈ v, safeChar c = true) :
    decodeSlashL (v.flatMap escapeChar ++ t) = v ++ decodeSlashL t := by
  induction v with
  | nil => simp
  | cons c v' ih =>
    have hc := hs c (List.mem_cons_self _ _)
    have hrest : ∀ x ∈ v', safeChar x = true := fun x hx => hs x (List.mem_cons_of_mem _ hx)
    rcases safeChar_cases hc with rfl | ⟨hesc, hamp⟩
    · have hfm : ('/' :: v').flatMap escapeChar =
          '&' :: '#' :: 'x' :: '2' :: 'F' :: ';' :: v'.flatMap escapeChar := rfl
      rw [hfm]
      show decodeSlashL ('&' :: '#' :: 'x' :: '2' :: 'F' :: ';' :: (v'.flatMap escapeChar ++ t)) =
        '/' :: (v' ++ decodeSlashL t)
      rw [decodeSlashL_entity, ih hrest]
    · have hfm : (c :: v').flatMap escapeChar = c :: v'.flatMap escapeChar := by
        rw [List.flatMap_cons, hesc]
        rfl
      rw [hfm]
      show decodeSlashL (c :: (v'.flatMap escapeChar ++ t)) = c :: (v' ++ decodeSlashL t)
      rw [decodeSlashL_cons_ne _ hamp, ih hrest]

theorem renderFuel_nil (p : String → Option String) (f : Nat) : renderFuel p f [] = [] := by
  cases f <;> rfl

theorem renderFuel_append (p : String → Option String) (a : List Char) :
    ∀ (f : Nat) (b : List Char), '{' ∉ a → a.length + b.length ≤ f →
      renderFuel p f (a ++ b) = a ++ renderFuel p (f - a.length) b := by
  induction a with
  | nil =>
    intro f b _ _
    simp
  | cons c a' ih =>
    intro f b hna hlen
    have hc : c ≠ '{' := fun hcc => hna (by rw [hcc]; exact List.mem_cons_self _ _)
    have hna' : '{' ∉ a' := fun hm => hna (List.mem_cons_of_mem _ hm)
    cases f with
    | zero =>
      simp [List.length_cons] at hlen
    | succ f' =>
      cases hab : a' ++ b with
      | nil =>
        obtain ⟨ha', hb⟩ := List.append_eq_nil.mp hab
        subst ha'
        subst hb
        simp [renderFuel_nil]
        rfl
      | cons d t =>
        rw [List.cons_append, hab]
        have hstep : renderFuel p (f' + 1) (c :: d :: t) = c :: renderFuel p f' (d :: t) := by
          simp only [renderFuel]
          rw [if_neg (fun hand => hc hand.1)]
        rw [hstep, ← hab,
          ih f' b hna' (by simp [List.length_cons] at hlen; omega)]
        simp [List.length_cons, Nat.succ_sub_succ]

theorem decode_renderFuel (p : String → Option String)
    (hvals : ∀ k s, p k = some s → ∀ c ∈ s.data, safeChar c = true) :
    ∀ (f : Nat) (l : List Char), l.length ≤ f → '&' ∉ l →
      decodeSlashL (renderFuel p f l) = substPlainFuel p f l := by
  intro f
  induction f with
  | zero =>
    intro l _ hamp
    exact decode_noamp hamp
  | succ f ih =>
    intro l hl hamp
    cases l with
    | nil => rfl
    | cons c1 lt =>
      cases lt with
      | nil =>
        have hc : c1 ≠ '&' := fun hcc => hamp (by rw [hcc]; exact List.mem_cons_self _ _)
        show decodeSlashL [c1] = [c1]
        rw [decodeSlashL_cons_ne _ hc]
        rfl
      | cons c2 rest =>
        by_cases hbr : c1 = '{' ∧ c2 = '{'
        · have hrw : renderFuel p (f + 1) (c1 :: c2 :: rest) =
              (match findClose rest with
               | none => c1 :: c2 :: rest
               | some q =>
                 (((p (String.mk q.1)).getD "").data.flatMap escapeChar) ++
                   renderFuel p f q.2) := by
            simp only [renderFuel]
            rw [if_pos hbr]
          have hrw2 : substPlainFuel p (f + 1) (c1 :: c2 :: rest) =
              (match findClose rest with
               | none => c1 :: c2 :: rest
               | some q =>
                 ((p (String.mk q.1)).getD "").data ++ substPlainFuel p f q.2) := by
            simp only [substPlainFuel]
            rw [if_pos hbr]
          rw [hrw, hrw2]
          cases hfc : findClose rest with
          | none => exact decode_noamp hamp
          | some q =>
            have hval : ∀ c ∈ ((p (String.mk q.1)).getD "").data, safeChar c = true := by
              cases hpk : p (String.mk q.1) with
              | none => simp
              | some s =>
                simp only [Option.getD_some]
                exact hvals _ s hpk
            rw [decode_escape_append _ _ hval]
            congr 1
            apply ih
            · have := findClose_len hfc
              simp [List.length_cons] at hl
              omega
            · intro hq2
              exact hamp (List.mem_cons_of_mem _
                (List.mem_cons_of_mem _ (findClose_mem hfc _ hq2)))
        · have hc1 : c1 ≠ '&' := fun hcc => hamp (by rw [hcc]; exact List.mem_cons_self _ _)
          have hrw : renderFuel p (f + 1) (c1 :: c2 :: rest) =
              c1 :: renderFuel p f (c2 :: rest) := by
            simp only [renderFuel]
            rw [if_neg hbr]
          have hrw2 : substPlainFuel p (f + 1) (c1 :: c2 :: rest) =
              c1 :: substPlainFuel p f (c2 :: rest) := by
            simp only [substPlainFuel]
            rw [if_neg hbr]
          rw [hrw, hrw2, decodeSlashL_cons_ne _ hc1]
          congr 1
          apply ih
          · simp [List.length_cons] at hl ⊢
            omega
          · intro hm
            exact hamp (List.mem_cons_of_mem _ hm)

/-- C5: for endpoints and api versions free of template/entity
metacharacters, a template whose literal text contains no `&`, and
payload values made of characters that survive mustache's escaping (any
character mustache does not escape, plus `/`, whose escaping `&#x2F;` the
client decodes back at src/dist/index.js:77), the built URI is exactly
`endpoint ++ "/" ++ apiVersion ++ renderedPath`, where the rendered path
substitutes each `{{field}}` placeholder with the payload's value (empty
when absent) and keeps substituted slashes literal. -/
theorem c5_uri_template_rendering (endpoint apiVersion tmpl : String) (json : Option JValue)
    (hEnd : ∀ c ∈ endpoint.data, c ≠ '{' ∧ c ≠ '&')
    (hVer : ∀ c ∈ apiVersion.data, c ≠ '{' ∧ c ≠ '&')
    (hTmpl : '&' ∉ tmpl.data)
    (hVals : ∀ k s, jsonCtx json k = some s → ∀ c ∈ s.data, safeChar c = true) :
    buildUri endpoint apiVersion tmpl json =
      endpoint ++ "/" ++ apiVersion ++ specRenderedPath tmpl (jsonCtx json) := by
  have hAdata : (endpoint ++ "/" ++ apiVersion ++ tmpl).data =
      (endpoint.data ++ '/' :: apiVersion.data) ++ tmpl.data := by
    show ((endpoint.data ++ ['/']) ++ apiVersion.data) ++ tmpl.data =
      (endpoint.data ++ '/' :: apiVersion.data) ++ tmpl.data
    simp [List.append_assoc]
  have hnoBr : '{' ∉ endpoint.data ++ '/' :: apiVersion.data := by
    intro hm
    rcases List.mem_append.mp hm with h | h
    · exact (hEnd _ h).1 rfl
    · rcases List.mem_cons.mp h with h' | h'
      · exact absurd h' (by decide)
      · exact (hVer _ h').1 rfl
  have hnoAmp : '&' ∉ endpoint.data ++ '/' :: apiVersion.data := by
    intro hm
    rcases List.mem_append.mp hm with h | h
    · exact (hEnd _ h).2 rfl
    · rcases List.mem_cons.mp h with h' | h'
      · exact absurd h' (by decide)
      · exact (hVer _ h').2 rfl
  unfold buildUri mustacheRenderL
  rw [hAdata]
  rw [renderFuel_append (jsonCtx json) _ _ _ hnoBr (by simp [List.length_append]; omega)]
  have hfuel : ((endpoint.data ++ '/' :: apiVersion.data) ++ tmpl.data).length -
      (endpoint.data ++ '/' :: apiVersion.data).length = tmpl.data.length := by
    simp [List.length_append]
    omega
  rw [hfuel]
  rw [decodeSlashL_append _ hnoAmp]
  rw [decode_renderFuel (jsonCtx json) hVals tmpl.data.length tmpl.data (le_refl _) hTmpl]
  have hR : (endpoint ++ "/" ++ apiVersion ++ specRenderedPath tmpl (jsonCtx json)).data =
      (endpoint.data ++ '/' :: apiVersion.data) ++
        substPlainFuel (jsonCtx json) tmpl.data.length tmpl.data := by
    show ((endpoint.data ++ ['/']) ++ apiVersion.data) ++
        (specRenderedPath tmpl (jsonCtx json)).data = _
    simp [specRenderedPath, List.append_assoc]
  calc
    String.mk ((endpoint.data ++ '/' :: apiVersion.data) ++
        substPlainFuel (jsonCtx json) tmpl.data.length tmpl.data)
      = String.mk ((endpoint ++ "/" ++ apiVersion ++
          specRenderedPath tmpl (jsonCtx json)).data) := by rw [hR]
    _ = endpoint ++ "/" ++ apiVersion ++ specRenderedPath tmpl (jsonCtx json) := rfl

/-- Witness for C5: the spec's own example — template `/secret/{{name}}`
with payload `{name: "a/b/c"}` yields
`http://127.0.0.1:8200/v1/secret/a/b/c`, slashes preserved. -/
theorem c5_uri_template_rendering_witness :
    buildUri "http://127.0.0.1:8200" "v1" "/secret/\x7b\x7bname\x7d\x7d"
        (some (.obj [("name", .str "a/b/c")])) =
      "http://127.0.0.1:8200/v1/secret/a/b/c" :=
  (c5_uri_template_rendering "http://127.0.0.1:8200" "v1" "/secret/\x7b\x7bname\x7d\x7d"
      (some (.obj [("name", .str "a/b/c")]))
      (by decide) (by decide) (by decide)
      (fun k s h => by
        by_cases hk : "name" = k
        · subst hk
          simp [jsonCtx, lookupField, jsCoerceStr] at h
          subst h
          decide
        · simp [jsonCtx, lookupField, hk] at h)).trans (by rfl)

end NodeVault
